import Mathlib

/-!
Verification of the es6_crypto key-format engine

A shallow embedding of the byte-level core of the `es6_crypto` library
(P-256 key-format conversion): the `Convert` codec primitives
(`convert.js`), the PKCS#8 buffer construction done by `PrivKey` and
`KeyPair` (`privkey.js`, `keypair.js`), the `PubKey` JWK import
(`pubkey.js`), and the seed-derivation retry loop.

Binary buffers (`ArrayBuffer` / `Uint8Array`) are embedded as `List Nat`
with every element < 256; JavaScript strings appear as `List Char` (or
`String` where the source switches on string tags).  The external
cryptographic provider (`crypto.subtle`) is kept abstract: each import
path takes the provider's acceptance predicates as parameters, and what
key material the provider holds after a successful import of one of the
fixed-layout buffers follows the byte layouts of the specification.  The
vendored big-integer / curve library (`tom_vu`, not part of the sources)
is modelled from the spec as exact P-256 affine arithmetic.
-/

set_option maxRecDepth 40000

namespace Es6

/-- Hex digit character for `v < 16`, lowercase, as produced by
JavaScript `Number.prototype.toString(16)`. -/
def hexDigit (v : Nat) : Char :=
  if v < 10 then Char.ofNat ('0'.toNat + v) else Char.ofNat ('a'.toNat + v - 10)

/-- Is `c` an ASCII hex digit (either case)?  Stated over the code
point (48–57 is `0`–`9`, 97–102 is `a`–`f`, 65–70 is `A`–`F`). -/
def isHexDigit (c : Char) : Bool :=
  decide ((48 ≤ c.toNat ∧ c.toNat ≤ 57) ∨ (97 ≤ c.toNat ∧ c.toNat ≤ 102) ∨
    (65 ≤ c.toNat ∧ c.toNat ≤ 70))

/-- Value of a single hex digit; 0 on other characters (a lone invalid
character yields `NaN` from `parseInt`, which `Uint8Array.from` coerces
to the byte 0). -/
def hexVal1 (c : Char) : Nat :=
  if 48 ≤ c.toNat ∧ c.toNat ≤ 57 then c.toNat - 48
  else if 97 ≤ c.toNat ∧ c.toNat ≤ 102 then c.toNat - 87
  else if 65 ≤ c.toNat ∧ c.toNat ≤ 70 then c.toNat - 55
  else 0

/-- `Number.parseInt(s, 16)`: parses the longest valid prefix of hex
digits; no digits at all gives `NaN`, which the `Uint8Array.from` call
site coerces to 0. -/
def parseIntHex : List Char → Nat
  | [] => 0
  | c :: r => if isHexDigit c then parseIntHexAux (hexVal1 c) r else 0
where
  parseIntHexAux : Nat → List Char → Nat
    | acc, [] => acc
    | acc, c :: r => if isHexDigit c then parseIntHexAux (acc * 16 + hexVal1 c) r else acc

/-- Left-to-right chunks of two characters (a trailing single character
kept alone); on an even-length list this agrees with the right-aligned
pairing of the split regex `/(?=(?:..)*$)/` in `hexStringToArrayBuffer`. -/
def hexPairs : List Char → List (List Char)
  | c1 :: c2 :: r => [c1, c2] :: hexPairs r
  | [c] => [[c]]
  | [] => []

/-- `Convert.hexStringToArrayBuffer`: the regex `/(?=(?:..)*$)/` splits the
string into right-aligned 2-character chunks (a leading 1-character chunk
when the length is odd), and each chunk goes through `parseInt(·, 16)`. -/
def hexStringToArrayBuffer (s : List Char) : List Nat :=
  if s.length % 2 = 1 then
    match s with
    | [] => []
    | c :: r => parseIntHex [c] :: (hexPairs r).map parseIntHex
  else
    (hexPairs s).map parseIntHex

/-- Two lowercase hex characters of a byte `b < 256`
(`i.toString(16).padStart(2, '0')`). -/
def byteHex (b : Nat) : List Char :=
  [hexDigit (b / 16), hexDigit (b % 16)]

/-- `Convert.arrayBufferToHexString`: every byte to two lowercase hex
digits, concatenated left to right (the source folds with `reduce`;
unfolded here as structural recursion with the same result). -/
def arrayBufferToHexString : List Nat → List Char
  | [] => []
  | b :: r => byteHex b ++ arrayBufferToHexString r

/-- The base64 alphabet in index order. -/
def b64Alphabet : List Char :=
  "ABCDEFGHIJKLMNOPQRSTUVWXYZabcdefghijklmnopqrstuvwxyz0123456789+/".toList

/-- Character for a 6-bit value. -/
def b64Enc (v : Nat) : Char := b64Alphabet.getD v '?'

/-- 6-bit value of an alphabet character (only used on characters that
passed the alphabet membership check). -/
def b64Val (c : Char) : Nat := b64Alphabet.indexOf c

/-- Membership in the base64 alphabet. -/
def isB64Char (c : Char) : Bool := b64Alphabet.contains c

/-- ASCII whitespace removed by forgiving-base64 decoding. -/
def isB64Ws (c : Char) : Bool :=
  c = ' ' || c = '\t' || c = '\n' || c = Char.ofNat 12 || c = Char.ofNat 13

/-- `btoa` on a byte list (the source first turns the `Uint8Array` into a
latin-1 string with `String.fromCharCode`): 3-byte groups to 4 characters,
with `=` padding for a 1- or 2-byte tail. -/
def btoaChunks : List Nat → List Char
  | [] => []
  | [b1] => [b64Enc (b1 / 4), b64Enc (b1 % 4 * 16), '=', '=']
  | [b1, b2] => [b64Enc (b1 / 4), b64Enc (b1 % 4 * 16 + b2 / 16), b64Enc (b2 % 16 * 4), '=']
  | b1 :: b2 :: b3 :: r =>
    b64Enc (b1 / 4) :: b64Enc (b1 % 4 * 16 + b2 / 16) ::
    b64Enc (b2 % 16 * 4 + b3 / 64) :: b64Enc (b3 % 64) :: btoaChunks r

/-- `Convert.arrayBufferToBase64`. -/
def arrayBufferToBase64 (l : List Nat) : List Char := btoaChunks l

/-- The unpadded part of `btoaChunks` (every character from the alphabet). -/
def b64Body : List Nat → List Char
  | [] => []
  | [b1] => [b64Enc (b1 / 4), b64Enc (b1 % 4 * 16)]
  | [b1, b2] => [b64Enc (b1 / 4), b64Enc (b1 % 4 * 16 + b2 / 16), b64Enc (b2 % 16 * 4)]
  | b1 :: b2 :: b3 :: r =>
    b64Enc (b1 / 4) :: b64Enc (b1 % 4 * 16 + b2 / 16) ::
    b64Enc (b2 % 16 * 4 + b3 / 64) :: b64Enc (b3 % 64) :: b64Body r

/-- The `=` padding appended by `btoaChunks`, determined by the input
length mod 3. -/
def b64PadOf (l : List Nat) : List Char :=
  if l.length % 3 = 0 then [] else if l.length % 3 = 1 then ['=', '='] else ['=']

/-- Remove one trailing `=` if present (one step of forgiving-base64
padding removal). -/
def stripPad (s : List Char) : List Char :=
  if s.getLast? = some '=' then s.dropLast else s

/-- Decode a base64 character list already known to have no whitespace,
no padding and length `% 4 ≠ 1`: 4-character groups to 3 bytes, with a
final group of 2 or 3 characters to 1 or 2 bytes (leftover bits
discarded, as in forgiving-base64). -/
def b64DecodeChunks : List Char → Option (List Nat)
  | [] => some []
  | [c1, c2] => some [b64Val c1 * 4 + b64Val c2 / 16]
  | [c1, c2, c3] =>
    some [b64Val c1 * 4 + b64Val c2 / 16, b64Val c2 % 16 * 16 + b64Val c3 / 4]
  | c1 :: c2 :: c3 :: c4 :: r =>
    (b64DecodeChunks r).map fun bs =>
      (b64Val c1 * 4 + b64Val c2 / 16) :: (b64Val c2 % 16 * 16 + b64Val c3 / 4) ::
      (b64Val c3 % 4 * 64 + b64Val c4) :: bs
  | [_] => none

/-- The pre-processing of forgiving-base64: strip ASCII whitespace and,
when the remaining length is a multiple of 4, up to two trailing `=`. -/
def atobPre (s : List Char) : List Char :=
  if (s.filter fun c => !isB64Ws c).length % 4 = 0 then
    stripPad (stripPad (s.filter fun c => !isB64Ws c))
  else s.filter fun c => !isB64Ws c

/-- `atob` (WHATWG forgiving-base64 decode): after pre-processing, fail
when the length is `1 mod 4` or a character is outside the alphabet;
`none` is the `InvalidCharacterError` throw. -/
def atobModel (s : List Char) : Option (List Nat) :=
  if (atobPre s).length % 4 = 1 then none
  else if (atobPre s).all isB64Char then b64DecodeChunks (atobPre s)
  else none

/-- `Convert.base64ToArrayBuffer` (via `atob` and a char-code copy loop). -/
def base64ToArrayBuffer (s : List Char) : Option (List Nat) := atobModel s

/-- The per-character effect of `replaceAll('/', '_').replaceAll('+', '-')`
(the two replacements touch disjoint characters). -/
def base64UrlChar (c : Char) : Char :=
  if c = '/' then '_' else if c = '+' then '-' else c

/-- `String.prototype.replace('=', '')`: removes only the *first* `=`. -/
def removeFirstEq : List Char → List Char
  | [] => []
  | c :: r => if c = '=' then r else c :: removeFirstEq r

/-- `Convert.base64ToUrlBase64`: `/`→`_`, `+`→`-`, then `replace('=', '')`
which drops a single `=` only. -/
def base64ToUrlBase64 (s : List Char) : List Char :=
  removeFirstEq (s.map base64UrlChar)

/-- The per-character effect of `replaceAll('_', '/').replaceAll('-', '+')`. -/
def urlBase64Char (c : Char) : Char :=
  if c = '_' then '/' else if c = '-' then '+' else c

/-- `Convert.urlBase64ToBase64` (no padding is re-added). -/
def urlBase64ToBase64 (s : List Char) : List Char := s.map urlBase64Char

/-- `Convert.arrayBufferToUrlBase64`. -/
def arrayBufferToUrlBase64 (l : List Nat) : List Char :=
  base64ToUrlBase64 (arrayBufferToBase64 l)

/-- `Convert.urlBase64ToArrayBuffer`. -/
def urlBase64ToArrayBuffer (s : List Char) : Option (List Nat) :=
  base64ToArrayBuffer (urlBase64ToBase64 s)

/-- Characters allowed by the URL-safe base64 sanity property of the
spec: `[A-Za-z0-9_-]`. -/
def isUrlB64SafeChar (c : Char) : Bool :=
  ('A' ≤ c && c ≤ 'Z') || ('a' ≤ c && c ≤ 'z') || ('0' ≤ c && c ≤ '9') ||
  c = '-' || c = '_'

/-- `target.set(src, off)` on a `Uint8Array`, in the in-bounds case
(`off + src.length ≤ buf.length`; out-of-bounds raises `RangeError` and is
guarded at the call sites that can reach it). -/
def writeAt (buf : List Nat) (off : Nat) (src : List Nat) : List Nat :=
  buf.take off ++ src ++ buf.drop (off + src.length)

/-- `buf.subarray(a, b)` / `buf.slice(a, b)`: elements `[a, b)`. -/
def listSlice (l : List Nat) (a b : Nat) : List Nat :=
  (l.drop a).take (b - a)

/-! ## P-256 arithmetic

The curve arithmetic lives in the vendored `tom_vu` big-integer library
(`BigInteger.js` / `ec.js`), which is not among the sources; the spec
(§4.2) treats it as an external, already-correct dependency computing
`scalar·G` over the fixed P-256 domain parameters.  The definitions below
are therefore modelled from the spec: textbook affine P-256 arithmetic,
executable over `Nat`.  The `p`, `a`, `b`, `G` constants are the ones in
`PrivKey.G` (`privkey.js`); the group order `n` is the standard P-256
domain parameter (the spec's "curve order", §3). -/
def pP256 : Nat :=
  0xFFFFFFFF00000001000000000000000000000000FFFFFFFFFFFFFFFFFFFFFFFF

def aP256 : Nat :=
  0xFFFFFFFF00000001000000000000000000000000FFFFFFFFFFFFFFFFFFFFFFFC

def bP256 : Nat :=
  0x5AC635D8AA3A93E7B3EBBD55769886BC651D06B0CC53B0F63BCE3C3E27D2604B

def gxP256 : Nat :=
  0x6B17D1F2E12C4247F8BCE6E563A440F277037D812DEB33A0F4A13945D898C296

def gyP256 : Nat :=
  0x4FE342E2FE1A7F9B8EE7EB4A7C0F9E162BCE33576B315ECECBB6406837BF51F5

def nP256 : Nat :=
  0xFFFFFFFF00000000FFFFFFFFFFFFFFFFBCE6FAADA7179E84F3B9CAC2FC632551

/-- Modular exponentiation by squaring, with enough structural fuel for
any exponent below `2 ^ fuel`. -/
def powModAux : Nat → Nat → Nat → Nat → Nat
  | 0, _, _, m => 1 % m
  | f + 1, b, e, m =>
    if e = 0 then 1 % m
    else
      let h := powModAux f (b * b % m) (e / 2) m
      if e % 2 = 1 then b * h % m else h

def powMod (b e m : Nat) : Nat := powModAux 260 b e m

/-- Inverse in the field of `pP256` elements (Fermat). -/
def invMod (x : Nat) : Nat := powMod x (pP256 - 2) pP256

/-- An affine point; `none` is the point at infinity.  Coordinates are
kept reduced modulo `pP256` by construction. -/
abbrev Pt : Type := Option (Nat × Nat)

/-- Modelled from the spec: affine point addition on P-256 (`ec.js`,
external). -/
def ptAdd : Pt → Pt → Pt
  | none, q => q
  | some p, none => some p
  | some (x1, y1), some (x2, y2) =>
    if x1 = x2 then
      if (y1 + y2) % pP256 = 0 then none
      else
        let lam := (3 * x1 * x1 + aP256) * invMod (2 * y1 % pP256) % pP256
        let x3 := (lam * lam + 2 * pP256 - (x1 + x2)) % pP256
        some (x3, (lam * ((x1 + pP256 - x3) % pP256) + (pP256 - y1)) % pP256)
    else
      let lam := (y2 + pP256 - y1) * invMod ((x2 + pP256 - x1) % pP256) % pP256
      let x3 := (lam * lam + 2 * pP256 - (x1 + x2)) % pP256
      some (x3, (lam * ((x1 + pP256 - x3) % pP256) + (pP256 - y1)) % pP256)

/-- Double-and-add scalar multiplication; `d = 0` gives the point at
infinity. -/
def ecMulAux : Nat → Nat → Pt → Pt
  | 0, _, _ => none
  | f + 1, d, p =>
    if d = 0 then none
    else
      let q := ecMulAux f (d / 2) (ptAdd p p)
      if d % 2 = 1 then ptAdd p q else q

/-- Modelled from the spec: `scalar·G`-style multiplication
(`ECCurveFp.multiply`, §4.2); enough fuel for scalars below `2^1040`,
covering every big-endian value of a buffer of at most 102 bytes (the
largest that reaches the multiplication through `fromD`). -/
def ecMul (d : Nat) (p : Pt) : Pt := ecMulAux 1040 d p

/-- The fixed generator `PrivKey.G` (decoded from its uncompressed hex in
`privkey.js`). -/
def GPt : Pt := some (gxP256, gyP256)

/-- Modelled from the spec: `new BigInteger(s, 16)` on a hex string
(the strings fed to it here are the lowercase hex output of
`Convert.arrayBufferToHexString`). -/
def bigIntOfHex (s : List Char) : Nat :=
  s.foldl (fun a c => a * 16 + hexVal1 c) 0

/-- Minimal-length lowercase hex digits of `n` (64 digits of fuel covers
every value below `2^256`, i.e. every P-256 field element and scalar
reachable here). -/
def hexMinAux : Nat → Nat → List Char
  | 0, _ => []
  | f + 1, n => if n < 16 then [hexDigit n] else hexMinAux f (n / 16) ++ [hexDigit (n % 16)]

/-- Modelled from the spec: `BigInteger.prototype.toString(16)` — the
*minimal* hex representation, with no zero-padding to 64 digits (the
spec flags the absence of padding in §4.3/§9). -/
def natToHexMin (n : Nat) : List Char := hexMinAux 64 n

/-- The bytes `fromD` writes for a coordinate:
`Convert.hexStringToArrayBuffer(bigInt.toString(16))` — between 1 and 32
bytes, 32 exactly when the value is ≥ 2^248. -/
def minBytesOfNat (n : Nat) : List Nat :=
  hexStringToArrayBuffer (natToHexMin n)

/-- Big-endian value of a byte list. -/
def bytesToNat (l : List Nat) : Nat := l.foldl (fun a b => a * 256 + b) 0

/-- Big-endian fixed-width bytes (most significant first). -/
def beBytesAux : Nat → Nat → List Nat
  | 0, _ => []
  | f + 1, n => beBytesAux f (n / 256) ++ [n % 256]

/-- The 32-byte big-endian form of a value below `2^256`. -/
def toBytes32 (n : Nat) : List Nat := beBytesAux 32 n

/-- The key material behind a private-key handle pair: the provider holds
the scalar and the embedded public coordinates as byte strings.  The two
role-specific handles (`ecdh`, `ecdsa`) of a `PrivKey` are imported from
the same bytes, so one record represents both. -/
structure PrivK where
  d32 : List Nat
  x32 : List Nat
  y32 : List Nat
deriving DecidableEq

/-- The key material behind a public-key handle pair. -/
structure PubK where
  x32 : List Nat
  y32 : List Nat
deriving DecidableEq

/-- `KeyPair` couples a `PrivKey` with a `PubKey` (`keypair.js`). -/
structure KeyPairK where
  priv : PrivK
  pub : PubK
deriving DecidableEq

/-- A JWK object as used by the sources (`kty`/`crv`/`ext` fixed fields,
base64url `d`/`x`/`y`, and the mutable `key_ops` usage list).  `d := none`
models a deleted/absent `d` property. -/
structure Jwk where
  kty : String
  crv : String
  ext : Bool
  d : Option String
  x : String
  y : String
  key_ops : List String
deriving DecidableEq

/-- The abstract external provider (`crypto.subtle`): one acceptance
predicate per import path and role.  The sources only observe whether an
`importKey` call resolves or rejects, so this is the whole boundary. -/
structure Provider where
  okPkcs8Ecdh : List Nat → Bool
  okPkcs8Ecdsa : List Nat → Bool
  okJwkPrivEcdh : Jwk → Bool
  okJwkPrivEcdsa : Jwk → Bool
  okJwkPubEcdh : Jwk → Bool
  okJwkPubEcdsa : Jwk → Bool
  okRawPubEcdh : List Nat → Bool
  okRawPubEcdsa : List Nat → Bool

/-- The provider that accepts every import. -/
def providerAll : Provider :=
  ⟨fun _ => true, fun _ => true, fun _ => true, fun _ => true,
   fun _ => true, fun _ => true, fun _ => true, fun _ => true⟩

/-- The provider that rejects every import. -/
def providerNone : Provider :=
  ⟨fun _ => false, fun _ => false, fun _ => false, fun _ => false,
   fun _ => false, fun _ => false, fun _ => false, fun _ => false⟩

/-- `PrivKey.pkcs8DHeader` (`privkey.js`): the fixed 36-byte DER prefix. -/
def pkcs8DHeader : List Nat :=
  [0x30, 0x81, 0x87, 0x02, 0x01, 0x00, 0x30,
   0x13, 0x06, 0x07, 0x2a, 0x86, 0x48, 0xce,
   0x3d, 0x02, 0x01, 0x06, 0x08, 0x2a, 0x86,
   0x48, 0xce, 0x3d, 0x03, 0x01, 0x07, 0x04,
   0x6d, 0x30, 0x6b, 0x02, 0x01, 0x01, 0x04,
   0x20]

/-- `PrivKey.pkcs8XYHeader` (`privkey.js`): the fixed 6-byte DER prefix
before the public-key bit string. -/
def pkcs8XYHeader : List Nat :=
  [0xa1, 0x44, 0x03, 0x42, 0x00, 0x04]

/-- Modelled from the spec: a successful provider import of a PKCS#8
buffer leaves the provider holding D at bytes 36–67, X at 74–105 and Y at
106–137 (§3 layout); both role imports must succeed (`PrivKey.fromPkcs8`
performs the two `importKey` calls and fails as a whole otherwise). -/
def importPkcs8 (p : Provider) (buf : List Nat) : Option PrivK :=
  if p.okPkcs8Ecdh buf && p.okPkcs8Ecdsa buf then
    some ⟨listSlice buf 36 68, listSlice buf 74 106, listSlice buf 106 138⟩
  else none

/-- `PrivKey.fromPkcs8`. -/
def privFromPkcs8 (p : Provider) (buf : List Nat) : Option PrivK :=
  importPkcs8 p buf

/-- Modelled from the spec: the provider's canonical PKCS#8 export of a
private key (`crypto.subtle.exportKey('pkcs8', ecdh)`), per the §3
fixed 138-byte layout. -/
def exportPkcs8 (k : PrivK) : List Nat :=
  pkcs8DHeader ++ k.d32 ++ pkcs8XYHeader ++ k.x32 ++ k.y32

/-- `PrivKey.toPkcs8` (export always reads the ECDH handle). -/
def privToPkcs8 (k : PrivK) : List Nat := exportPkcs8 k

/-- `PrivKey.toHex`. -/
def privToHex (k : PrivK) : List Char := arrayBufferToHexString (privToPkcs8 k)

/-- `PrivKey.toBase64`. -/
def privToBase64 (k : PrivK) : List Char := arrayBufferToBase64 (privToPkcs8 k)

/-- Modelled from the spec: the provider's JWK export of an ECDH private
key — base64url `d`/`x`/`y` fields and the key's usage list. -/
def privToJwk (k : PrivK) : Jwk :=
  ⟨"EC", "P-256", true, some (String.mk (arrayBufferToUrlBase64 k.d32)),
   String.mk (arrayBufferToUrlBase64 k.x32),
   String.mk (arrayBufferToUrlBase64 k.y32), ["deriveKey"]⟩

/-- The state of the caller's JWK object after `PrivKey.fromJwk` sets
`key_ops = ['deriveKey']`. -/
def privJwkState1 (k : PrivK) : Jwk := { privToJwk k with key_ops := ["deriveKey"] }

/-- The state of the caller's JWK object after `PrivKey.fromJwk` sets
`key_ops = ['sign']`. -/
def privJwkState2 (k : PrivK) : Jwk := { privToJwk k with key_ops := ["sign"] }

/-- `PrivKey.toD`: the base64url `d` member of the exported JWK, decoded. -/
def privToD (k : PrivK) : Option (List Nat) :=
  match (privToJwk k).d with
  | some s => urlBase64ToArrayBuffer s.data
  | none => none

/-- `PrivKey.toRaw`: a fresh 65+32 byte buffer with `raw[0] = 4`,
`raw[1..65) = pkcs8[74..138)`, `raw[65..97) = pkcs8[36..68)`. -/
def privToRaw (k : PrivK) : List Nat :=
  writeAt (writeAt (writeAt (List.replicate 97 0) 0 [0x04])
    1 (listSlice (privToPkcs8 k) 74 138)) 65 (listSlice (privToPkcs8 k) 36 68)

/-- The provider's parse of the `d`/`x`/`y` fields of a private JWK. -/
def importJwkPrivFields (j : Jwk) : Option PrivK :=
  match j.d with
  | none => none
  | some ds =>
    match urlBase64ToArrayBuffer ds.data, urlBase64ToArrayBuffer j.x.data,
        urlBase64ToArrayBuffer j.y.data with
    | some db, some xb, some yb => some ⟨db, xb, yb⟩
    | _, _, _ => none

/-- `PrivKey.fromJwk`: sets `key_ops = ['deriveKey']` on the caller's
object, imports for ECDH, sets `key_ops = ['sign']`, imports for ECDSA.
Returns the result together with the state of the caller's JWK object at
exit. -/
def privFromJwk (p : Provider) (j : Jwk) : Option PrivK × Jwk :=
  let j1 := { j with key_ops := ["deriveKey"] }
  match importJwkPrivFields j1, p.okJwkPrivEcdh j1 with
  | some k, true =>
    let j2 := { j1 with key_ops := ["sign"] }
    if p.okJwkPrivEcdsa j2 then (some k, j2) else (none, j2)
  | _, _ => (none, j1)

/-- The 138-byte buffer built by `PrivKey.fromD` (`privkey.js` 246–265)
from the scalar bytes and the computed affine coordinates: header at 0,
`dBuf` at 36, XY header at 68, and the *unpadded* minimal encodings of X
and Y at 74 and 106. -/
def fromDBuild (dBuf : List Nat) (x y : Nat) : List Nat :=
  writeAt (writeAt (writeAt (writeAt (writeAt (List.replicate 138 0)
    0 pkcs8DHeader) 36 dBuf) 68 pkcs8XYHeader)
    74 (minBytesOfNat x)) 106 (minBytesOfNat y)

/-- The buffer `PrivKey.fromD` submits to the provider: `none` when the
scalar degenerates to the point at infinity (`getX()` on the infinity
point throws inside the vendored library, spec §4.4). -/
def fromDBuffer (dBuf : List Nat) : Option (List Nat) :=
  match ecMul (bigIntOfHex (arrayBufferToHexString dBuf)) GPt with
  | none => none
  | some (x, y) => some (fromDBuild dBuf x y)

/-- `PrivKey.fromD`: software-derives the public point with `G.multiply`,
builds the PKCS#8 buffer and delegates to `fromPkcs8`.  Only a `dBuf`
longer than 102 bytes overruns the 138-byte target of
`pkcs8.set(dBuf, 36)` and throws `RangeError` before any import; a
shorter-than-32 or 33–102-byte `dBuf` is written left-aligned at 36
(the XY header and coordinate writes later overwrite bytes from 68 on)
and the resulting buffer is still submitted to the provider. -/
def privFromD (p : Provider) (dBuf : List Nat) : Option PrivK :=
  if 102 < dBuf.length then none
  else
    match fromDBuffer dBuf with
    | none => none
    | some buf => privFromPkcs8 p buf

/-- The 138-byte buffer built by `PrivKey.fromRaw` (`privkey.js`
198–208): D from `raw[65..97)` at 36, X‖Y from `raw[1..65)` at 74. -/
def fromRawBuild (raw : List Nat) : List Nat :=
  writeAt (writeAt (writeAt (writeAt (List.replicate 138 0)
    0 pkcs8DHeader) 36 (listSlice raw 65 97)) 68 pkcs8XYHeader)
    74 (listSlice raw 1 65)

/-- `PrivKey.fromRaw` delegates the built buffer to `fromPkcs8`. -/
def privFromRaw (p : Provider) (raw : List Nat) : Option PrivK :=
  privFromPkcs8 p (fromRawBuild raw)

/-- `PrivKey.fromHex`. -/
def privFromHex (p : Provider) (s : List Char) : Option PrivK :=
  privFromPkcs8 p (hexStringToArrayBuffer s)

/-- `PrivKey.fromBase64` (an `atob` throw propagates as failure). -/
def privFromBase64 (p : Provider) (s : List Char) : Option PrivK :=
  match base64ToArrayBuffer s with
  | none => none
  | some buf => privFromPkcs8 p buf

/-- Modelled from the spec: a successful raw import of an uncompressed
point leaves the provider holding X at bytes 1–32 and Y at 33–64
(§3 raw public layout). -/
def pubFromRaw (p : Provider) (raw : List Nat) : Option PubK :=
  if p.okRawPubEcdh raw && p.okRawPubEcdsa raw then
    some ⟨listSlice raw 1 33, listSlice raw 33 65⟩
  else none

/-- The provider's parse of the `x`/`y` fields of a public JWK. -/
def importJwkPubFields (j : Jwk) : Option PubK :=
  match urlBase64ToArrayBuffer j.x.data, urlBase64ToArrayBuffer j.y.data with
  | some xb, some yb => some ⟨xb, yb⟩
  | _, _ => none

/-- `PubKey.fromJwk` (`pubkey.js` 143–162): `delete jwk.d`, set
`key_ops = []`, import for ECDH, set `key_ops = ['verify']`, import for
ECDSA.  Returns the result together with the state of the caller's JWK
object at exit. -/
def pubFromJwk (p : Provider) (j : Jwk) : Option PubK × Jwk :=
  let j1 := { j with d := none, key_ops := [] }
  match importJwkPubFields j1, p.okJwkPubEcdh j1 with
  | some k, true =>
    let j2 := { j1 with key_ops := ["verify"] }
    if p.okJwkPubEcdsa j2 then (some k, j2) else (none, j2)
  | _, _ => (none, j1)

/-- The 65-byte raw public buffer `KeyPair.fromPkcs8` (`keypair.js`
100–110) builds without any scalar multiplication: `rawPub[0] = 4`,
`rawPub.set(pkcs8.subarray(74, 138), 1)`. -/
def kpRawPubOf (pkcs8 : List Nat) : List Nat :=
  writeAt (writeAt (List.replicate 65 0) 0 [0x04]) 1 (listSlice pkcs8 74 138)

/-- `KeyPair.fromPkcs8`: private half from the buffer, public half from
the lifted raw buffer; both must succeed. -/
def kpFromPkcs8 (p : Provider) (buf : List Nat) : Option KeyPairK :=
  match importPkcs8 p buf, pubFromRaw p (kpRawPubOf buf) with
  | some a, some b => some ⟨a, b⟩
  | _, _ => none

/-- The KeyPair invariant of the spec (§3): the public half's point
equals the private half's scalar times G. -/
def KPInv (kp : KeyPairK) : Prop :=
  ecMul (bytesToNat kp.priv.d32) GPt =
    some (bytesToNat kp.pub.x32, bytesToNat kp.pub.y32)

instance (kp : KeyPairK) : Decidable (KPInv kp) :=
  decidable_of_iff (ecMul (bytesToNat kp.priv.d32) GPt =
    some (bytesToNat kp.pub.x32, bytesToNat kp.pub.y32)) Iff.rfl

/-- A PKCS#8 buffer whose embedded public coordinates match its embedded
scalar (computable consistency check on the §3 layout). -/
def consistentPkcs8 (buf : List Nat) : Bool :=
  decide (ecMul (bytesToNat (listSlice buf 36 68)) GPt =
    some (bytesToNat (listSlice buf 74 106), bytesToNat (listSlice buf 106 138)))

/-- Big-step semantics of the recursive `fromSeed` retry loop: try
`fromD(seed)`; on any failure, recurse on `SHA-256(seed)`.  The digest is
the abstract provider's (`hash` parameter); the relation holds exactly of
the derivations that terminate. -/
inductive FromSeedR (p : Provider) (hash : List Nat → List Nat) :
    List Nat → PrivK → Prop
  | found {s : List Nat} {k : PrivK} :
      privFromD p s = some k → FromSeedR p hash s k
  | retry {s : List Nat} {k : PrivK} :
      privFromD p s = none → FromSeedR p hash (hash s) k → FromSeedR p hash s k

/-- The import operations `PrivKey.from` can dispatch to. -/
inductive PrivOp
  | opB64 | opHex | opPkcs8 | opJwk | opD | opSeed | opRandom
deriving DecidableEq

/-- `PrivKey.from(type, ...)` tag dispatch (`privkey.js` 667–686): the
`switch` selects an import operation before any provider call; the
default branch throws (`UnknownFormatError` in the spec's taxonomy),
modelled as `none`. -/
def privKeyFromTag (t : String) : Option PrivOp :=
  if t = "b64" then some .opB64
  else if t = "hex" then some .opHex
  else if t = "pkcs8" then some .opPkcs8
  else if t = "jwk" then some .opJwk
  else if t = "d" then some .opD
  else if t = "seed" then some .opSeed
  else if t = "random" then some .opRandom
  else none

/-- The import operations `PubKey.from` can dispatch to. -/
inductive PubOp
  | opB64 | opHex | opSpki | opJwk | opCoordinates
deriving DecidableEq

/-- `PubKey.from(type, ...)` tag dispatch (`pubkey.js` 492–507). -/
def pubKeyFromTag (t : String) : Option PubOp :=
  if t = "b64" then some .opB64
  else if t = "hex" then some .opHex
  else if t = "spki" then some .opSpki
  else if t = "jwk" then some .opJwk
  else if t = "coordinates" then some .opCoordinates
  else none

/-- Field lengths of a well-formed private-key record (as produced by any
provider import of the fixed-layout buffers). -/
def SizedPriv (k : PrivK) : Prop :=
  k.d32.length = 32 ∧ k.x32.length = 32 ∧ k.y32.length = 32

/-- A 138-byte buffer carrying the scalar 1 but the coordinates of `2·G`:
internally inconsistent, yet structurally a perfectly formed PKCS#8
P-256 private key. -/
def c3BadBuf : List Nat :=
  pkcs8DHeader ++ toBytes32 1 ++ pkcs8XYHeader ++
    toBytes32 0x7cf27b188d034f7e8a52380304b51ac3c08969e277f21b35a60b48fc47669978 ++
    toBytes32 0x07775510db8ed040293d9ac69f7430dbba7dade63ce982299e04b79d227873d1

/-- A provider whose PKCS#8 ECDH import accepts exactly the consistent
buffers. -/
def pConsistent : Provider :=
  ⟨consistentPkcs8, fun _ => true, fun _ => true, fun _ => true,
   fun _ => true, fun _ => true, fun _ => true, fun _ => true⟩

/-- The canonical buffer of the key with scalar 1. -/
def c3GoodBuf : List Nat :=
  exportPkcs8 ⟨toBytes32 1, toBytes32 gxP256, toBytes32 gyP256⟩

/-- Byte-ranged fields of a private-key record. -/
def BytesPriv (k : PrivK) : Prop :=
  (∀ b ∈ k.d32, b < 256) ∧ (∀ b ∈ k.x32, b < 256) ∧ (∀ b ∈ k.y32, b < 256)

instance (k : PrivK) : Decidable (SizedPriv k) :=
  decidable_of_iff (k.d32.length = 32 ∧ k.x32.length = 32 ∧ k.y32.length = 32)
    Iff.rfl

instance (k : PrivK) : Decidable (BytesPriv k) :=
  decidable_of_iff ((∀ b ∈ k.d32, b < 256) ∧ (∀ b ∈ k.x32, b < 256) ∧
    (∀ b ∈ k.y32, b < 256)) Iff.rfl

/-- The key with scalar 379: a perfectly valid freshly-generatable key
(`0 < d < n`, point consistent) whose X coordinate is below `2^248`. -/
def c2BadKey : PrivK :=
  ⟨toBytes32 379,
   toBytes32 0x5543894af3d00ed7d740abdbd75c96b06877b787db5f70eea78b90a8d7c00a,
   toBytes32 0xbb4c85a3d8ea29efaafa24406912dd84d5b14dc32bf656ef6c6bd58a5d943f92⟩

/-- The key with scalar 1. -/
def c2GoodKey : PrivK := ⟨toBytes32 1, toBytes32 gxP256, toBytes32 gyP256⟩

/-! ## Lemmas about the hex codec -/
theorem hexVal1_hexDigit : ∀ v < 16, hexVal1 (hexDigit v) = v := by decide

theorem isHexDigit_hexDigit : ∀ v < 16, isHexDigit (hexDigit v) = true := by decide

theorem parseIntHex_byteHex (b : Nat) (hb : b < 256) : parseIntHex (byteHex b) = b := by
  have h1 : b / 16 < 16 := by omega
  have h2 : b % 16 < 16 := by omega
  simp only [byteHex, parseIntHex, parseIntHex.parseIntHexAux,
    isHexDigit_hexDigit _ h1, isHexDigit_hexDigit _ h2,
    hexVal1_hexDigit _ h1, hexVal1_hexDigit _ h2, if_true]
  omega

theorem arrayBufferToHexString_length (l : List Nat) :
    (arrayBufferToHexString l).length = 2 * l.length := by
  induction l with
  | nil => rfl
  | cons b r ih => simp [arrayBufferToHexString, byteHex, ih]; omega

theorem hexPairs_decode (l : List Nat) (h : ∀ b ∈ l, b < 256) :
    (hexPairs (arrayBufferToHexString l)).map parseIntHex = l := by
  induction l with
  | nil => rfl
  | cons b r ih =>
    have hb : b < 256 := h b (List.mem_cons_self b r)
    have hpb := parseIntHex_byteHex b hb
    rw [byteHex] at hpb
    have ihr := ih fun x hx => h x (List.mem_cons_of_mem b hx)
    simp only [arrayBufferToHexString, byteHex, List.cons_append, List.nil_append,
      hexPairs, List.map_cons, hpb]
    exact congrArg (fun t => b :: t) ihr

/-- Decoding the hex encoding restores the bytes. -/
theorem hex_roundtrip (l : List Nat) (h : ∀ b ∈ l, b < 256) :
    hexStringToArrayBuffer (arrayBufferToHexString l) = l := by
  have hlen := arrayBufferToHexString_length l
  unfold hexStringToArrayBuffer
  rw [if_neg (by omega)]
  exact hexPairs_decode l h

/-! ## Lemmas about the base64 codec -/
theorem b64Val_b64Enc : ∀ v < 64, b64Val (b64Enc v) = v := by decide

theorem isB64Char_b64Enc : ∀ v < 64, isB64Char (b64Enc v) = true := by decide

theorem b64Alphabet_not_ws : ∀ c ∈ b64Alphabet, isB64Ws c = false := by decide

theorem b64Alphabet_ne_eq : ∀ c ∈ b64Alphabet, c ≠ '=' := by decide

theorem isB64Char_mem {c : Char} (h : isB64Char c = true) : c ∈ b64Alphabet :=
  List.elem_iff.mp h

theorem isB64Char_not_ws {c : Char} (h : isB64Char c = true) : isB64Ws c = false :=
  b64Alphabet_not_ws c (isB64Char_mem h)

theorem isB64Char_ne_eq {c : Char} (h : isB64Char c = true) : c ≠ '=' :=
  b64Alphabet_ne_eq c (isB64Char_mem h)

/-- `btoa` output splits into its unpadded body and its `=` padding. -/
theorem btoaChunks_decomp : (l : List Nat) → btoaChunks l = b64Body l ++ b64PadOf l
  | [] => rfl
  | [_] => rfl
  | [_, _] => rfl
  | b1 :: b2 :: b3 :: r => by
    have hmod3 : (r.length + 1 + 1 + 1) % 3 = r.length % 3 := by omega
    have hpad : b64PadOf (b1 :: b2 :: b3 :: r) = b64PadOf r := by
      simp only [b64PadOf, List.length_cons, hmod3]
    simp only [btoaChunks, b64Body, hpad, List.cons_append,
      btoaChunks_decomp r]

theorem b64Body_chars : (l : List Nat) → (∀ b ∈ l, b < 256) →
    ∀ c ∈ b64Body l, isB64Char c = true
  | [], _, c, hc => by simp [b64Body] at hc
  | [b1], h, c, hc => by
    have hb1 : b1 < 256 := h b1 (by simp)
    simp only [b64Body, List.mem_cons, List.not_mem_nil, or_false] at hc
    rcases hc with rfl | rfl
    · exact isB64Char_b64Enc _ (by omega)
    · exact isB64Char_b64Enc _ (by omega)
  | [b1, b2], h, c, hc => by
    have hb1 : b1 < 256 := h b1 (by simp)
    have hb2 : b2 < 256 := h b2 (by simp)
    simp only [b64Body, List.mem_cons, List.not_mem_nil, or_false] at hc
    rcases hc with rfl | rfl | rfl
    · exact isB64Char_b64Enc _ (by omega)
    · exact isB64Char_b64Enc _ (by omega)
    · exact isB64Char_b64Enc _ (by omega)
  | b1 :: b2 :: b3 :: r, h, c, hc => by
    have hb1 : b1 < 256 := h b1 (by simp)
    have hb2 : b2 < 256 := h b2 (by simp)
    have hb3 : b3 < 256 := h b3 (by simp)
    simp only [b64Body, List.mem_cons] at hc
    rcases hc with rfl | rfl | rfl | rfl | hmem
    · exact isB64Char_b64Enc _ (by omega)
    · exact isB64Char_b64Enc _ (by omega)
    · exact isB64Char_b64Enc _ (by omega)
    · exact isB64Char_b64Enc _ (by omega)
    · exact b64Body_chars r (fun x hx => h x (by simp [hx])) c hmem

theorem b64Body_length : (l : List Nat) →
    (b64Body l).length = 4 * (l.length / 3) + (if l.length % 3 = 0 then 0
      else if l.length % 3 = 1 then 2 else 3)
  | [] => rfl
  | [_] => by simp [b64Body]
  | [_, _] => by simp [b64Body]
  | b1 :: b2 :: b3 :: r => by
    have hmod3 : (r.length + 1 + 1 + 1) % 3 = r.length % 3 := by omega
    have hdiv3 : (r.length + 1 + 1 + 1) / 3 = r.length / 3 + 1 := by omega
    simp only [b64Body, List.length_cons, hmod3, hdiv3, b64Body_length r]
    by_cases e0 : r.length % 3 = 0 <;> by_cases e1 : r.length % 3 = 1 <;>
      simp [e0, e1] <;> omega

theorem stripPad_of_not_eq {s : List Char} (h : s.getLast? ≠ some '=') :
    stripPad s = s := by
  simp [stripPad, h]

theorem stripPad_concat (xs : List Char) : stripPad (xs ++ ['=']) = xs := by
  simp [stripPad, List.getLast?_concat, List.dropLast_concat]

theorem b64Body_getLast_ne (l : List Nat) (h : ∀ b ∈ l, b < 256) :
    (b64Body l).getLast? ≠ some '=' := by
  intro hlast
  have hmem : '=' ∈ b64Body l := List.mem_of_mem_getLast? hlast
  exact isB64Char_ne_eq (b64Body_chars l h '=' hmem) rfl

theorem b64DecodeChunks_body : (l : List Nat) → (∀ b ∈ l, b < 256) →
    b64DecodeChunks (b64Body l) = some l
  | [], _ => rfl
  | [b1], h => by
    have hb1 : b1 < 256 := h b1 (by simp)
    have h1 : b1 / 4 < 64 := by omega
    have h2 : b1 % 4 * 16 < 64 := by omega
    simp only [b64Body, b64DecodeChunks, b64Val_b64Enc _ h1, b64Val_b64Enc _ h2,
      Option.some.injEq, List.cons.injEq, and_true]
    omega
  | [b1, b2], h => by
    have hb1 : b1 < 256 := h b1 (by simp)
    have hb2 : b2 < 256 := h b2 (by simp)
    have h1 : b1 / 4 < 64 := by omega
    have h2 : b1 % 4 * 16 + b2 / 16 < 64 := by omega
    have h3 : b2 % 16 * 4 < 64 := by omega
    simp only [b64Body, b64DecodeChunks, b64Val_b64Enc _ h1, b64Val_b64Enc _ h2,
      b64Val_b64Enc _ h3, Option.some.injEq, List.cons.injEq, and_true]
    repeat' apply And.intro
    all_goals omega
  | b1 :: b2 :: b3 :: r, h => by
    have hb1 : b1 < 256 := h b1 (by simp)
    have hb2 : b2 < 256 := h b2 (by simp)
    have hb3 : b3 < 256 := h b3 (by simp)
    have h1 : b1 / 4 < 64 := by omega
    have h2 : b1 % 4 * 16 + b2 / 16 < 64 := by omega
    have h3 : b2 % 16 * 4 + b3 / 64 < 64 := by omega
    have h4 : b3 % 64 < 64 := by omega
    have ih := b64DecodeChunks_body r (fun x hx => h x (by simp [hx]))
    match hbody : b64Body r with
    | [] =>
      rw [hbody] at ih
      simp only [b64Body, hbody, b64DecodeChunks, b64Val_b64Enc _ h1,
        b64Val_b64Enc _ h2, b64Val_b64Enc _ h3, b64Val_b64Enc _ h4, ih,
        Option.map_some', Option.some.injEq, List.cons.injEq, and_true]
      repeat' apply And.intro
      all_goals omega
    | c :: cs =>
      rw [hbody] at ih
      simp only [b64Body, hbody, b64DecodeChunks, b64Val_b64Enc _ h1,
        b64Val_b64Enc _ h2, b64Val_b64Enc _ h3, b64Val_b64Enc _ h4, ih,
        Option.map_some', Option.some.injEq, List.cons.injEq, and_true]
      repeat' apply And.intro
      all_goals omega

theorem btoaChunks_filter (l : List Nat) (h : ∀ b ∈ l, b < 256) :
    (btoaChunks l).filter (fun c => !isB64Ws c) = btoaChunks l := by
  refine List.filter_eq_self.mpr fun c hc => ?_
  rw [btoaChunks_decomp l] at hc
  rcases List.mem_append.mp hc with hbody | hpad
  · simp [isB64Char_not_ws (b64Body_chars l h c hbody)]
  · have : c = '=' := by
      simp only [b64PadOf] at hpad
      split at hpad
      · simp at hpad
      · split at hpad <;> simp_all
    subst this
    rfl

/-- Pre-processing undoes the padding: `atob`'s input reduces to the
unpadded body of the `btoa` output. -/
theorem atobPre_btoaChunks (l : List Nat) (h : ∀ b ∈ l, b < 256) :
    atobPre (btoaChunks l) = b64Body l := by
  have hlen := b64Body_length l
  rw [atobPre, btoaChunks_filter l h, btoaChunks_decomp l]
  by_cases h3 : l.length % 3 = 0
  · have hpad : b64PadOf l = [] := by simp [b64PadOf, h3]
    have hblen : (b64Body l).length = 4 * (l.length / 3) := by
      rw [hlen]; simp [h3]
    rw [hpad, List.append_nil, if_pos (by omega),
      stripPad_of_not_eq (b64Body_getLast_ne l h),
      stripPad_of_not_eq (b64Body_getLast_ne l h)]
  · by_cases h3' : l.length % 3 = 1
    · have hpad : b64PadOf l = ['=', '='] := by simp [b64PadOf, h3, h3']
      have hblen : (b64Body l).length = 4 * (l.length / 3) + 2 := by
        rw [hlen]; simp [h3, h3']
      rw [hpad, show b64Body l ++ ['=', '='] = (b64Body l ++ ['=']) ++ ['='] by simp,
        if_pos (by simp; omega), stripPad_concat, stripPad_concat]
    · have hpad : b64PadOf l = ['='] := by simp [b64PadOf, h3, h3']
      have hblen : (b64Body l).length = 4 * (l.length / 3) + 3 := by
        rw [hlen]; simp [h3, h3']
      rw [hpad, if_pos (by simp; omega), stripPad_concat,
        stripPad_of_not_eq (b64Body_getLast_ne l h)]

theorem b64Body_length_mod (l : List Nat) : (b64Body l).length % 4 ≠ 1 := by
  have hlen := b64Body_length l
  by_cases e0 : l.length % 3 = 0 <;> by_cases e1 : l.length % 3 = 1 <;>
    simp [e0, e1] at hlen <;> omega

/-- Decoding the base64 encoding restores the bytes
(`atob ∘ btoa = id` on latin-1 byte strings). -/
theorem b64_roundtrip (l : List Nat) (h : ∀ b ∈ l, b < 256) :
    base64ToArrayBuffer (arrayBufferToBase64 l) = some l := by
  rw [base64ToArrayBuffer, arrayBufferToBase64, atobModel, atobPre_btoaChunks l h,
    if_neg (b64Body_length_mod l),
    if_pos (List.all_eq_true.mpr fun c hc => b64Body_chars l h c hc)]
  exact b64DecodeChunks_body l h

/-! ## Lemmas about the URL-safe base64 codec -/
theorem url_char_inv_alpha : ∀ c ∈ b64Alphabet, urlBase64Char (base64UrlChar c) = c := by
  decide

theorem url_char_ne_eq : ∀ c ∈ b64Alphabet, base64UrlChar c ≠ '=' := by decide

theorem url_safe_alpha : ∀ c ∈ b64Alphabet, isUrlB64SafeChar (base64UrlChar c) = true := by
  decide

theorem removeFirstEq_append {xs : List Char} (ys : List Char) (h : '=' ∉ xs) :
    removeFirstEq (xs ++ ys) = xs ++ removeFirstEq ys := by
  induction xs with
  | nil => rfl
  | cons c r ih =>
    have hc : c ≠ '=' := fun hc => h (hc ▸ List.mem_cons_self c r)
    simp only [List.cons_append, removeFirstEq, if_neg hc]
    exact congrArg (fun t => c :: t) (ih fun hm => h (List.mem_cons_of_mem c hm))

theorem removeFirstEq_of_not_mem {xs : List Char} (h : '=' ∉ xs) :
    removeFirstEq xs = xs := by
  have := removeFirstEq_append [] h
  simpa [removeFirstEq] using this

theorem mem_removeFirstEq {c : Char} {xs : List Char} (h : c ∈ removeFirstEq xs) :
    c ∈ xs := by
  induction xs with
  | nil => simp [removeFirstEq] at h
  | cons x r ih =>
    by_cases hx : x = '='
    · simp only [removeFirstEq, if_pos hx] at h
      exact List.mem_cons_of_mem x h
    · simp only [removeFirstEq, if_neg hx, List.mem_cons] at h
      rcases h with rfl | h
      · exact List.mem_cons_self c r
      · exact List.mem_cons_of_mem x (ih h)

theorem map_base64UrlChar_no_eq (l : List Nat) (h : ∀ b ∈ l, b < 256) :
    '=' ∉ (b64Body l).map base64UrlChar := by
  intro hmem
  rcases List.mem_map.mp hmem with ⟨c, hc, hc'⟩
  exact url_char_ne_eq c (isB64Char_mem (b64Body_chars l h c hc)) hc'

/-- The URL-safe encoding with the padding separated: for buffers whose
length is not 1 mod 3 the single `replace('=', '')` does remove all the
padding. -/
theorem arrayBufferToUrlBase64_eq (l : List Nat) (h : ∀ b ∈ l, b < 256)
    (h3 : l.length % 3 ≠ 1) :
    arrayBufferToUrlBase64 l = (b64Body l).map base64UrlChar := by
  rw [arrayBufferToUrlBase64, arrayBufferToBase64, base64ToUrlBase64,
    btoaChunks_decomp l, List.map_append,
    removeFirstEq_append _ (map_base64UrlChar_no_eq l h)]
  by_cases h0 : l.length % 3 = 0
  · simp [b64PadOf, h0, removeFirstEq]
  · have h2 : l.length % 3 = 2 := by omega
    simp [b64PadOf, h0, h3, removeFirstEq, base64UrlChar]

/-- For buffers of length 1 mod 3, one of the two `=` survives. -/
theorem arrayBufferToUrlBase64_eq1 (l : List Nat) (h : ∀ b ∈ l, b < 256)
    (h3 : l.length % 3 = 1) :
    arrayBufferToUrlBase64 l = (b64Body l).map base64UrlChar ++ ['='] := by
  rw [arrayBufferToUrlBase64, arrayBufferToBase64, base64ToUrlBase64,
    btoaChunks_decomp l, List.map_append,
    removeFirstEq_append _ (map_base64UrlChar_no_eq l h)]
  simp [b64PadOf, h3, removeFirstEq, base64UrlChar]

theorem map_url_char_inv (l : List Nat) (h : ∀ b ∈ l, b < 256) :
    ((b64Body l).map base64UrlChar).map urlBase64Char = b64Body l := by
  rw [List.map_map]
  refine List.map_congr_left (fun c hc => ?_) |>.trans (List.map_id _)
  exact url_char_inv_alpha c (isB64Char_mem (b64Body_chars l h c hc))

theorem b64Body_not_ws (l : List Nat) (h : ∀ b ∈ l, b < 256) :
    (b64Body l).filter (fun c => !isB64Ws c) = b64Body l :=
  List.filter_eq_self.mpr fun c hc => by
    simp [isB64Char_not_ws (b64Body_chars l h c hc)]

/-- `atob` decodes the bare (unpadded) body correctly. -/
theorem atob_body (l : List Nat) (h : ∀ b ∈ l, b < 256) :
    atobModel (b64Body l) = some l := by
  have hpre : atobPre (b64Body l) = b64Body l := by
    rw [atobPre, b64Body_not_ws l h]
    by_cases h4 : (b64Body l).length % 4 = 0
    · rw [if_pos h4, stripPad_of_not_eq (b64Body_getLast_ne l h),
        stripPad_of_not_eq (b64Body_getLast_ne l h)]
    · rw [if_neg h4]
  rw [atobModel, hpre, if_neg (b64Body_length_mod l),
    if_pos (List.all_eq_true.mpr fun c hc => b64Body_chars l h c hc)]
  exact b64DecodeChunks_body l h

/-- Decoding the URL-safe encoding restores the bytes when the length is
not 1 mod 3. -/
theorem url_b64_roundtrip (l : List Nat) (h : ∀ b ∈ l, b < 256)
    (h3 : l.length % 3 ≠ 1) :
    urlBase64ToArrayBuffer (arrayBufferToUrlBase64 l) = some l := by
  rw [urlBase64ToArrayBuffer, urlBase64ToBase64, arrayBufferToUrlBase64_eq l h h3,
    map_url_char_inv l h]
  exact atob_body l h

/-- For buffers of length 1 mod 3 the kept `=` makes decoding throw. -/
theorem url_b64_fail (l : List Nat) (h : ∀ b ∈ l, b < 256)
    (h3 : l.length % 3 = 1) :
    urlBase64ToArrayBuffer (arrayBufferToUrlBase64 l) = none := by
  rw [urlBase64ToArrayBuffer, urlBase64ToBase64, arrayBufferToUrlBase64_eq1 l h h3,
    List.map_append, map_url_char_inv l h,
    (by decide : List.map urlBase64Char ['='] = ['=']), base64ToArrayBuffer]
  have hblen : (b64Body l).length = 4 * (l.length / 3) + 2 := by
    have := b64Body_length l
    simp only [h3] at this
    simpa using this
  have hfilter : (b64Body l ++ ['=']).filter (fun c => !isB64Ws c)
      = b64Body l ++ ['='] := by
    refine List.filter_eq_self.mpr fun c hc => ?_
    rcases List.mem_append.mp hc with hb | hp
    · simp [isB64Char_not_ws (b64Body_chars l h c hb)]
    · simp at hp; subst hp; rfl
  have hpre : atobPre (b64Body l ++ ['=']) = b64Body l ++ ['='] := by
    rw [atobPre, hfilter, if_neg (by simp [hblen]; omega)]
  have hall : (b64Body l ++ ['=']).all isB64Char = false := by
    refine List.all_eq_false.mpr ⟨'=', by simp, by decide⟩
  unfold atobModel
  rw [hpre, if_neg (by simp [hblen]; omega), hall, if_neg (by simp)]

/-- C6 (amended): for every byte buffer, including the empty one, the hex
and plain base64 encodings round-trip
(`hexStringToArrayBuffer ∘ arrayBufferToHexString = id` and
`base64ToArrayBuffer ∘ arrayBufferToBase64 = some`); the URL-safe base64
encoding round-trips exactly when the buffer length is not 1 mod 3: with
two `=` of padding, `base64ToUrlBase64` removes only the first one and
`urlBase64ToArrayBuffer` then throws on the survivor. -/
theorem c6_roundtrips (l : List Nat) (h : ∀ b ∈ l, b < 256) :
    hexStringToArrayBuffer (arrayBufferToHexString l) = l ∧
    base64ToArrayBuffer (arrayBufferToBase64 l) = some l ∧
    (l.length % 3 ≠ 1 → urlBase64ToArrayBuffer (arrayBufferToUrlBase64 l) = some l) ∧
    (l.length % 3 = 1 → urlBase64ToArrayBuffer (arrayBufferToUrlBase64 l) = none) :=
  ⟨hex_roundtrip l h, b64_roundtrip l h,
   fun h3 => url_b64_roundtrip l h h3, fun h3 => url_b64_fail l h h3⟩

/-- C6 counterexample: the one-byte buffer `[0]` encodes to the URL-safe
string `AA=` (one `=` kept), whose decoding fails instead of returning
the buffer. -/
theorem c6_counterexample :
    ¬ urlBase64ToArrayBuffer (arrayBufferToUrlBase64 [0]) = some [0] := by decide

/-- C6 witness at the concrete buffer `[0, 255]`. -/
theorem c6_witness :
    hexStringToArrayBuffer (arrayBufferToHexString [0, 255]) = [0, 255] ∧
    base64ToArrayBuffer (arrayBufferToBase64 [0, 255]) = some [0, 255] ∧
    urlBase64ToArrayBuffer (arrayBufferToUrlBase64 [0, 255]) = some [0, 255] := by
  obtain ⟨h1, h2, h3, _⟩ := c6_roundtrips [0, 255] (by decide)
  exact ⟨h1, h2, h3 (by decide)⟩

/-- C7 (amended): `arrayBufferToUrlBase64` maps `+` to `-` and `/` to `_`
but strips only the *first* `=` of padding, so its output is over
`[A-Za-z0-9_-]` together with possibly one `=`; the output is over
`[A-Za-z0-9_-]` alone exactly when the buffer length is not 1 mod 3. -/
theorem c7_charset (l : List Nat) (h : ∀ b ∈ l, b < 256) :
    (∀ c ∈ arrayBufferToUrlBase64 l, isUrlB64SafeChar c = true ∨ c = '=') ∧
    (l.length % 3 ≠ 1 → ∀ c ∈ arrayBufferToUrlBase64 l, isUrlB64SafeChar c = true) ∧
    (l.length % 3 = 1 → '=' ∈ arrayBufferToUrlBase64 l) := by
  refine ⟨fun c hc => ?_, fun h3 c hc => ?_, fun h3 => ?_⟩
  · have hc' : c ∈ (btoaChunks l).map base64UrlChar := by
      rw [arrayBufferToUrlBase64, arrayBufferToBase64, base64ToUrlBase64] at hc
      exact mem_removeFirstEq hc
    rcases List.mem_map.mp hc' with ⟨c0, hc0, rfl⟩
    rw [btoaChunks_decomp l] at hc0
    rcases List.mem_append.mp hc0 with hb | hp
    · exact Or.inl (url_safe_alpha c0 (isB64Char_mem (b64Body_chars l h c0 hb)))
    · right
      have : c0 = '=' := by
        simp only [b64PadOf] at hp
        split at hp
        · simp at hp
        · split at hp <;> simp_all
      subst this
      rfl
  · rw [arrayBufferToUrlBase64_eq l h h3] at hc
    rcases List.mem_map.mp hc with ⟨c0, hc0, rfl⟩
    exact url_safe_alpha c0 (isB64Char_mem (b64Body_chars l h c0 hc0))
  · rw [arrayBufferToUrlBase64_eq1 l h h3]
    simp

/-- C7 counterexample: the URL-safe encoding of the one-byte buffer `[0]`
is `AA=`, which contains `=`, a character outside `[A-Za-z0-9_-]`. -/
theorem c7_counterexample :
    '=' ∈ arrayBufferToUrlBase64 [0] ∧ isUrlB64SafeChar '=' = false := by decide

/-- C7 witness at the concrete buffer `[251, 255]` (whose base64 uses both
`+` and `/` positions): every output character is in `[A-Za-z0-9_-]`. -/
theorem c7_witness :
    (arrayBufferToUrlBase64 [251, 255]).all isUrlB64SafeChar = true := by
  have h := (c7_charset [251, 255] (by decide)).2.1 (by decide)
  exact List.all_eq_true.mpr h

theorem writeAt_mid (pre mid post src : List Nat) (h : src.length = mid.length) :
    writeAt (pre ++ (mid ++ post)) pre.length src = pre ++ (src ++ post) := by
  rw [writeAt, List.take_left, h, show pre.length + mid.length = (pre ++ mid).length by
    simp, ← List.append_assoc, List.drop_left, List.append_assoc]

theorem slice_mid (pre mid post : List Nat) :
    listSlice (pre ++ (mid ++ post)) pre.length (pre.length + mid.length) = mid := by
  rw [listSlice, List.drop_left, Nat.add_sub_cancel_left, List.take_left]

/-- `writeAt` on a buffer split as `pre ++ mid ++ post`, replacing `mid`. -/
theorem writeAt_split (pre mid post src : List Nat) (off : Nat)
    (hoff : off = pre.length) (hlen : src.length = mid.length) :
    writeAt (pre ++ mid ++ post) off src = pre ++ src ++ post := by
  subst hoff
  simpa [List.append_assoc] using writeAt_mid pre mid post src hlen

/-- `listSlice` of a buffer split as `pre ++ mid ++ post`, extracting `mid`. -/
theorem slice_split (pre mid post : List Nat) (a b : Nat)
    (ha : a = pre.length) (hb : b = pre.length + mid.length) :
    listSlice (pre ++ mid ++ post) a b = mid := by
  subst ha hb
  simpa [List.append_assoc] using slice_mid pre mid post

/-! ## Buffer-construction lemmas -/
theorem fromRawBuild_eq (raw : List Nat) (hraw : raw.length = 97) :
    fromRawBuild raw =
      pkcs8DHeader ++ listSlice raw 65 97 ++ pkcs8XYHeader ++ listSlice raw 1 65 := by
  have hd : (listSlice raw 65 97).length = 32 := by
    simp [listSlice, hraw]
  have hxy : (listSlice raw 1 65).length = 64 := by
    simp [listSlice, hraw]
  rw [fromRawBuild]
  rw [show (List.replicate 138 (0 : Nat)) =
      [] ++ List.replicate 36 0 ++ List.replicate 102 0 by
    simp [← List.replicate_add]]
  rw [writeAt_split [] (List.replicate 36 0) (List.replicate 102 0) pkcs8DHeader 0
    rfl (by decide)]
  rw [show ([] ++ pkcs8DHeader ++ List.replicate 102 (0 : Nat)) =
      pkcs8DHeader ++ List.replicate 32 0 ++ List.replicate 70 0 by
    simp [← List.replicate_add]]
  rw [writeAt_split pkcs8DHeader (List.replicate 32 0) (List.replicate 70 0)
    (listSlice raw 65 97) 36 rfl (by rw [hd, List.length_replicate])]
  rw [show (pkcs8DHeader ++ listSlice raw 65 97 ++ List.replicate 70 (0 : Nat)) =
      (pkcs8DHeader ++ listSlice raw 65 97) ++ List.replicate 6 0 ++
        List.replicate 64 0 by
    simp [← List.replicate_add]]
  rw [writeAt_split (pkcs8DHeader ++ listSlice raw 65 97) (List.replicate 6 0)
    (List.replicate 64 0) pkcs8XYHeader 68 (by simp [hd] <;> rfl) (by decide)]
  rw [show ((pkcs8DHeader ++ listSlice raw 65 97) ++ pkcs8XYHeader ++
      List.replicate 64 (0 : Nat)) =
      ((pkcs8DHeader ++ listSlice raw 65 97) ++ pkcs8XYHeader) ++
        List.replicate 64 0 ++ [] by
    simp]
  rw [writeAt_split ((pkcs8DHeader ++ listSlice raw 65 97) ++ pkcs8XYHeader)
    (List.replicate 64 0) [] (listSlice raw 1 65) 74 (by simp [hd] <;> rfl)
    (by rw [hxy, List.length_replicate])]
  simp [List.append_assoc]

theorem fromDBuild_eq (d : List Nat) (x y : Nat) (hd : d.length = 32)
    (hx : (minBytesOfNat x).length = 32) (hy : (minBytesOfNat y).length = 32) :
    fromDBuild d x y =
      pkcs8DHeader ++ d ++ pkcs8XYHeader ++ minBytesOfNat x ++ minBytesOfNat y := by
  rw [fromDBuild]
  rw [show (List.replicate 138 (0 : Nat)) =
      [] ++ List.replicate 36 0 ++ List.replicate 102 0 by
    simp [← List.replicate_add]]
  rw [writeAt_split [] (List.replicate 36 0) (List.replicate 102 0) pkcs8DHeader 0
    rfl (by decide)]
  rw [show ([] ++ pkcs8DHeader ++ List.replicate 102 (0 : Nat)) =
      pkcs8DHeader ++ List.replicate 32 0 ++ List.replicate 70 0 by
    simp [← List.replicate_add]]
  rw [writeAt_split pkcs8DHeader (List.replicate 32 0) (List.replicate 70 0) d 36
    rfl (by rw [hd, List.length_replicate])]
  rw [show (pkcs8DHeader ++ d ++ List.replicate 70 (0 : Nat)) =
      (pkcs8DHeader ++ d) ++ List.replicate 6 0 ++ List.replicate 64 0 by
    simp [← List.replicate_add]]
  rw [writeAt_split (pkcs8DHeader ++ d) (List.replicate 6 0) (List.replicate 64 0)
    pkcs8XYHeader 68 (by simp [hd] <;> rfl) (by decide)]
  rw [show ((pkcs8DHeader ++ d) ++ pkcs8XYHeader ++ List.replicate 64 (0 : Nat)) =
      ((pkcs8DHeader ++ d) ++ pkcs8XYHeader) ++ List.replicate 32 0 ++
        List.replicate 32 0 by
    simp [← List.replicate_add]]
  rw [writeAt_split ((pkcs8DHeader ++ d) ++ pkcs8XYHeader) (List.replicate 32 0)
    (List.replicate 32 0) (minBytesOfNat x) 74 (by simp [hd] <;> rfl)
    (by rw [hx, List.length_replicate])]
  rw [show (((pkcs8DHeader ++ d) ++ pkcs8XYHeader) ++ minBytesOfNat x ++
      List.replicate 32 (0 : Nat)) =
      (((pkcs8DHeader ++ d) ++ pkcs8XYHeader) ++ minBytesOfNat x) ++
        List.replicate 32 0 ++ [] by
    simp]
  rw [writeAt_split (((pkcs8DHeader ++ d) ++ pkcs8XYHeader) ++ minBytesOfNat x)
    (List.replicate 32 0) [] (minBytesOfNat y) 106 (by simp [hd, hx] <;> rfl)
    (by rw [hy, List.length_replicate])]
  simp [List.append_assoc]

theorem exportPkcs8_slice_d (k : PrivK) (hk : SizedPriv k) :
    listSlice (exportPkcs8 k) 36 68 = k.d32 := by
  rw [show exportPkcs8 k =
      pkcs8DHeader ++ k.d32 ++ (pkcs8XYHeader ++ k.x32 ++ k.y32) by
    simp [exportPkcs8, List.append_assoc]]
  exact slice_split _ _ _ 36 68 rfl (by rw [hk.1] <;> rfl)

theorem exportPkcs8_slice_x (k : PrivK) (hk : SizedPriv k) :
    listSlice (exportPkcs8 k) 74 106 = k.x32 := by
  rw [show exportPkcs8 k =
      (pkcs8DHeader ++ k.d32 ++ pkcs8XYHeader) ++ k.x32 ++ k.y32 by
    simp [exportPkcs8, List.append_assoc]]
  exact slice_split _ _ _ 74 106 (by simp [hk.1] <;> rfl) (by simp [hk.1, hk.2.1] <;> rfl)

theorem exportPkcs8_slice_y (k : PrivK) (hk : SizedPriv k) :
    listSlice (exportPkcs8 k) 106 138 = k.y32 := by
  rw [show exportPkcs8 k =
      (pkcs8DHeader ++ k.d32 ++ pkcs8XYHeader ++ k.x32) ++ k.y32 ++ [] by
    simp [exportPkcs8, List.append_assoc]]
  exact slice_split _ _ _ 106 138 (by simp [hk.1, hk.2.1] <;> rfl)
    (by simp [hk.1, hk.2.1, hk.2.2] <;> rfl)

theorem exportPkcs8_slice_xy (k : PrivK) (hk : SizedPriv k) :
    listSlice (exportPkcs8 k) 74 138 = k.x32 ++ k.y32 := by
  rw [show exportPkcs8 k =
      (pkcs8DHeader ++ k.d32 ++ pkcs8XYHeader) ++ (k.x32 ++ k.y32) ++ [] by
    simp [exportPkcs8, List.append_assoc]]
  exact slice_split _ _ _ 74 138 (by simp [hk.1] <;> rfl)
    (by simp [hk.1, hk.2.1, hk.2.2] <;> rfl)

theorem exportPkcs8_length (k : PrivK) (hk : SizedPriv k) :
    (exportPkcs8 k).length = 138 := by
  simp [exportPkcs8, hk.1, hk.2.1, hk.2.2]
  decide

/-- Re-importing the canonical export recovers the key record. -/
theorem importPkcs8_exportPkcs8 (p : Provider) (k : PrivK) (hk : SizedPriv k)
    (h1 : p.okPkcs8Ecdh (exportPkcs8 k) = true)
    (h2 : p.okPkcs8Ecdsa (exportPkcs8 k) = true) :
    importPkcs8 p (exportPkcs8 k) = some k := by
  rw [importPkcs8, h1, h2, exportPkcs8_slice_d k hk, exportPkcs8_slice_x k hk,
    exportPkcs8_slice_y k hk]
  rfl

theorem privToRaw_eq (k : PrivK) (hk : SizedPriv k) :
    privToRaw k = [0x04] ++ k.x32 ++ k.y32 ++ k.d32 := by
  rw [privToRaw, privToPkcs8, exportPkcs8_slice_xy k hk, exportPkcs8_slice_d k hk]
  rw [show (List.replicate 97 (0 : Nat)) =
      [] ++ List.replicate 1 0 ++ List.replicate 96 0 by
    simp [← List.replicate_add]]
  rw [writeAt_split [] (List.replicate 1 0) (List.replicate 96 0) [0x04] 0 rfl
    (by decide)]
  rw [show ([] ++ [0x04] ++ List.replicate 96 (0 : Nat)) =
      [0x04] ++ List.replicate 64 0 ++ List.replicate 32 0 by
    simp [← List.replicate_add]]
  rw [writeAt_split [0x04] (List.replicate 64 0) (List.replicate 32 0)
    (k.x32 ++ k.y32) 1 rfl (by simp [hk.2.1, hk.2.2])]
  rw [show ([0x04] ++ (k.x32 ++ k.y32) ++ List.replicate 32 (0 : Nat)) =
      ([0x04] ++ (k.x32 ++ k.y32)) ++ List.replicate 32 0 ++ [] by
    simp]
  rw [writeAt_split ([0x04] ++ (k.x32 ++ k.y32)) (List.replicate 32 0) [] k.d32 65
    (by simp [hk.2.1, hk.2.2] <;> rfl) (by rw [hk.1, List.length_replicate])]
  simp [List.append_assoc]

theorem kpRawPubOf_eq (buf : List Nat) (hbuf : buf.length = 138) :
    kpRawPubOf buf = [0x04] ++ listSlice buf 74 138 := by
  have h64 : (listSlice buf 74 138).length = 64 := by
    simp [listSlice, hbuf]
  rw [kpRawPubOf]
  rw [show (List.replicate 65 (0 : Nat)) =
      [] ++ List.replicate 1 0 ++ List.replicate 64 0 by
    simp [← List.replicate_add]]
  rw [writeAt_split [] (List.replicate 1 0) (List.replicate 64 0) [0x04] 0 rfl
    (by decide)]
  rw [show ([] ++ [0x04] ++ List.replicate 64 (0 : Nat)) =
      [0x04] ++ List.replicate 64 0 ++ [] by
    simp]
  rw [writeAt_split [0x04] (List.replicate 64 0) [] (listSlice buf 74 138) 1 rfl
    (by rw [h64, List.length_replicate])]
  simp

/-! ## Value lemmas for the big-integer text conversions -/
theorem foldl16_byteHex (b acc : Nat) (hb : b < 256) :
    List.foldl (fun a c => a * 16 + hexVal1 c) acc (byteHex b) = acc * 256 + b := by
  have h1 : b / 16 < 16 := by omega
  have h2 : b % 16 < 16 := by omega
  simp [byteHex, hexVal1_hexDigit _ h1, hexVal1_hexDigit _ h2]
  omega

theorem bigIntOfHex_hexOf_aux : ∀ (l : List Nat), (∀ b ∈ l, b < 256) → ∀ acc : Nat,
    List.foldl (fun a c => a * 16 + hexVal1 c) acc (arrayBufferToHexString l) =
      List.foldl (fun a b => a * 256 + b) acc l
  | [], _, _ => rfl
  | b :: r, h, acc => by
    have hb : b < 256 := h b (by simp)
    rw [show arrayBufferToHexString (b :: r) = byteHex b ++ arrayBufferToHexString r
        from rfl,
      List.foldl_append, foldl16_byteHex b acc hb, List.foldl_cons]
    exact bigIntOfHex_hexOf_aux r (fun x hx => h x (by simp [hx])) _

/-- `new BigInteger(Convert.arrayBufferToHexString(buf), 16)` is the
big-endian value of the bytes. -/
theorem bigIntOfHex_hexOf (l : List Nat) (h : ∀ b ∈ l, b < 256) :
    bigIntOfHex (arrayBufferToHexString l) = bytesToNat l :=
  bigIntOfHex_hexOf_aux l h 0

theorem hexVal1_lt (c : Char) : hexVal1 c < 16 := by
  unfold hexVal1
  split
  · omega
  split
  · omega
  split
  · omega
  · omega

theorem parseIntHexAux_lt (c : Char) (acc : Nat) (hacc : acc < 16) :
    parseIntHex.parseIntHexAux acc [c] < 256 := by
  rw [parseIntHex.parseIntHexAux]
  split
  · have := hexVal1_lt c
    rw [parseIntHex.parseIntHexAux]
    omega
  · omega

theorem parseIntHex_lt : ∀ s : List Char, s.length ≤ 2 → parseIntHex s < 256
  | [], _ => by simp [parseIntHex]
  | [c], _ => by
    rw [parseIntHex]
    split
    · rw [parseIntHex.parseIntHexAux]
      exact Nat.lt_of_lt_of_le (hexVal1_lt c) (by omega)
    · omega
  | [c1, c2], _ => by
    rw [parseIntHex]
    split
    · exact parseIntHexAux_lt c2 (hexVal1 c1) (hexVal1_lt c1)
    · omega
  | _ :: _ :: _ :: _, hl => by simp at hl

theorem hexPairs_short : ∀ (s : List Char), ∀ p ∈ hexPairs s, p.length ≤ 2
  | [], _, hp => by simp [hexPairs] at hp
  | [c], p, hp => by
    simp [hexPairs] at hp
    simp [hp]
  | c1 :: c2 :: r, p, hp => by
    rw [hexPairs] at hp
    rcases List.mem_cons.mp hp with rfl | hp
    · simp
    · exact hexPairs_short r p hp

/-- Every byte produced by the hex decoder is an actual byte. -/
theorem hexToBytes_bytes (s : List Char) :
    ∀ b ∈ hexStringToArrayBuffer s, b < 256 := by
  unfold hexStringToArrayBuffer
  split
  · match s with
    | [] => simp
    | c :: r =>
      intro b hb
      rcases List.mem_cons.mp hb with rfl | hb
      · exact parseIntHex_lt [c] (by simp)
      · rcases List.mem_map.mp hb with ⟨pc, hpc, rfl⟩
        exact parseIntHex_lt pc (hexPairs_short r pc hpc)
  · intro b hb
    rcases List.mem_map.mp hb with ⟨pc, hpc, rfl⟩
    exact parseIntHex_lt pc (hexPairs_short s pc hpc)

theorem minBytes_bytes (n : Nat) : ∀ b ∈ minBytesOfNat n, b < 256 :=
  hexToBytes_bytes (natToHexMin n)

/-- C8: for a 97-byte raw private input, `fromRaw` builds a 138-byte
PKCS#8 buffer with the fixed DER prefixes at 0–35 and 68–73, the scalar
bytes `raw[65..97)` at 36–67 and the coordinate bytes `raw[1..65)` at
74–137, and delegates the import of exactly that buffer to `fromPkcs8`. -/
theorem c8_fromRaw (p : Provider) (raw : List Nat) (hraw : raw.length = 97) :
    (fromRawBuild raw).length = 138 ∧
    listSlice (fromRawBuild raw) 0 36 = pkcs8DHeader ∧
    listSlice (fromRawBuild raw) 36 68 = listSlice raw 65 97 ∧
    listSlice (fromRawBuild raw) 68 74 = pkcs8XYHeader ∧
    listSlice (fromRawBuild raw) 74 138 = listSlice raw 1 65 ∧
    privFromRaw p raw = privFromPkcs8 p (fromRawBuild raw) := by
  have hd : (listSlice raw 65 97).length = 32 := by simp [listSlice, hraw]
  have hxy : (listSlice raw 1 65).length = 64 := by simp [listSlice, hraw]
  have hE := fromRawBuild_eq raw hraw
  refine ⟨?_, ?_, ?_, ?_, ?_, rfl⟩
  · rw [hE]; simp [hd, hxy]; decide
  · rw [hE, show pkcs8DHeader ++ listSlice raw 65 97 ++ pkcs8XYHeader ++
        listSlice raw 1 65 =
        [] ++ pkcs8DHeader ++ (listSlice raw 65 97 ++ pkcs8XYHeader ++
          listSlice raw 1 65) by simp]
    exact slice_split _ _ _ 0 36 rfl rfl
  · rw [hE, show pkcs8DHeader ++ listSlice raw 65 97 ++ pkcs8XYHeader ++
        listSlice raw 1 65 =
        pkcs8DHeader ++ listSlice raw 65 97 ++ (pkcs8XYHeader ++
          listSlice raw 1 65) by simp]
    exact slice_split _ _ _ 36 68 rfl (by rw [hd] <;> rfl)
  · rw [hE, show pkcs8DHeader ++ listSlice raw 65 97 ++ pkcs8XYHeader ++
        listSlice raw 1 65 =
        (pkcs8DHeader ++ listSlice raw 65 97) ++ pkcs8XYHeader ++
          listSlice raw 1 65 by simp]
    exact slice_split _ _ _ 68 74 (by simp [hd] <;> rfl) (by simp [hd] <;> rfl)
  · rw [hE, show pkcs8DHeader ++ listSlice raw 65 97 ++ pkcs8XYHeader ++
        listSlice raw 1 65 =
        (pkcs8DHeader ++ listSlice raw 65 97 ++ pkcs8XYHeader) ++
          listSlice raw 1 65 ++ [] by simp]
    exact slice_split _ _ _ 74 138 (by simp [hd] <;> rfl)
      (by simp [hd, hxy] <;> rfl)

/-- C8 witness at a concrete 97-byte input. -/
theorem c8_witness :
    (fromRawBuild (List.range 97)).length = 138 ∧
    listSlice (fromRawBuild (List.range 97)) 36 68 =
      listSlice (List.range 97) 65 97 ∧
    listSlice (fromRawBuild (List.range 97)) 74 138 =
      listSlice (List.range 97) 1 65 := by
  obtain ⟨h1, _, h3, _, h5, _⟩ :=
    c8_fromRaw providerAll (List.range 97) (by decide)
  exact ⟨h1, h3, h5⟩

/-! ## Claim C3: `KeyPair.fromPkcs8` and the KeyPair invariant -/
theorem kpRawPub_slice_x (buf : List Nat) (hbuf : buf.length = 138) :
    listSlice (kpRawPubOf buf) 1 33 = listSlice buf 74 106 := by
  rw [kpRawPubOf_eq buf hbuf]
  simp only [listSlice]
  norm_num
  rw [List.take_take]
  norm_num

theorem kpRawPub_slice_y (buf : List Nat) (hbuf : buf.length = 138) :
    listSlice (kpRawPubOf buf) 33 65 = listSlice buf 106 138 := by
  rw [kpRawPubOf_eq buf hbuf]
  simp only [listSlice]
  norm_num
  rw [List.drop_take, List.drop_drop]
  norm_num [List.take_take]

/-- C3 (amended): `KeyPair.fromPkcs8` does lift the public half straight
out of bytes 74–137 of the input (prefixed with `0x04`) with no scalar
multiplication — the embedding of `kpFromPkcs8` contains none — and the
resulting pair satisfies the §3 invariant *provided* the provider accepts
only buffers whose embedded X/Y equal D·G; nothing in the code itself
checks that consistency. -/
theorem c3_kpFromPkcs8 (p : Provider) (buf : List Nat) (hbuf : buf.length = 138)
    (hcons : ∀ b, p.okPkcs8Ecdh b = true → consistentPkcs8 b = true) :
    kpRawPubOf buf = [0x04] ++ listSlice buf 74 138 ∧
    ∀ kp, kpFromPkcs8 p buf = some kp → KPInv kp := by
  refine ⟨kpRawPubOf_eq buf hbuf, fun kp hkp => ?_⟩
  rw [kpFromPkcs8] at hkp
  cases himp : importPkcs8 p buf with
  | none => rw [himp] at hkp; exact absurd hkp (by simp)
  | some a =>
    cases hpub : pubFromRaw p (kpRawPubOf buf) with
    | none => rw [himp, hpub] at hkp; exact absurd hkp (by simp)
    | some b =>
      rw [himp, hpub] at hkp
      simp only [Option.some.injEq] at hkp
      subst hkp
      rw [importPkcs8] at himp
      by_cases hok : (p.okPkcs8Ecdh buf && p.okPkcs8Ecdsa buf) = true
      case neg => rw [if_neg hok] at himp; exact absurd himp (by simp)
      rw [if_pos hok] at himp
      simp only [Option.some.injEq] at himp
      rw [pubFromRaw] at hpub
      split at hpub
      · simp only [Option.some.injEq] at hpub
        have hEcdh : p.okPkcs8Ecdh buf = true := by
          rcases Bool.and_eq_true_iff.mp hok with ⟨h1, _⟩
          exact h1
        have hcons' := hcons buf hEcdh
        rw [consistentPkcs8, decide_eq_true_eq] at hcons'
        rw [KPInv, ← himp, ← hpub]
        simpa [kpRawPub_slice_x buf hbuf, kpRawPub_slice_y buf hbuf] using hcons'
      · exact absurd hpub (by simp)

/-- C3 counterexample: a provider that accepts the inconsistent buffer
(nothing in the spec's provider boundary requires the X/Y–D consistency
check) yields a KeyPair whose public point is `2·G` while the private
scalar is 1, violating the invariant; `fromPkcs8` never re-derives and
never compares. -/
theorem c3_counterexample :
    c3BadBuf.length = 138 ∧
    (kpFromPkcs8 providerAll c3BadBuf).map (fun kp => decide (KPInv kp)) =
      some false := by
  decide

/-- C3 witness: under the consistency-checking provider, importing the
canonical scalar-1 buffer yields a pair satisfying the invariant. -/
theorem c3_witness :
    kpFromPkcs8 pConsistent c3GoodBuf =
      some ⟨⟨toBytes32 1, toBytes32 gxP256, toBytes32 gyP256⟩,
        ⟨toBytes32 gxP256, toBytes32 gyP256⟩⟩ ∧
    KPInv ⟨⟨toBytes32 1, toBytes32 gxP256, toBytes32 gyP256⟩,
      ⟨toBytes32 gxP256, toBytes32 gyP256⟩⟩ := by
  have h := (c3_kpFromPkcs8 pConsistent c3GoodBuf (by decide)
    (fun b hb => hb)).2
  exact ⟨by decide, h _ (by decide)⟩

theorem pkcs8DHeader_bytes : ∀ b ∈ pkcs8DHeader, b < 256 := by decide

theorem pkcs8XYHeader_bytes : ∀ b ∈ pkcs8XYHeader, b < 256 := by decide

theorem exportPkcs8_bytes (k : PrivK) (hB : BytesPriv k) :
    ∀ b ∈ exportPkcs8 k, b < 256 := by
  intro b hb
  rw [exportPkcs8] at hb
  simp only [List.append_assoc, List.mem_append] at hb
  rcases hb with h | h | h | h | h
  · exact pkcs8DHeader_bytes b h
  · exact hB.1 b h
  · exact pkcs8XYHeader_bytes b h
  · exact hB.2.1 b h
  · exact hB.2.2 b h

theorem url32_roundtrip (l : List Nat) (hlen : l.length = 32)
    (hb : ∀ b ∈ l, b < 256) :
    urlBase64ToArrayBuffer (arrayBufferToUrlBase64 l) = some l :=
  url_b64_roundtrip l hb (by omega)

theorem importJwkPrivFields_toJwk (k : PrivK) (hk : SizedPriv k)
    (hB : BytesPriv k) (ops : List String) :
    importJwkPrivFields { privToJwk k with key_ops := ops } = some k := by
  have hd := url32_roundtrip k.d32 hk.1 hB.1
  have hx := url32_roundtrip k.x32 hk.2.1 hB.2.1
  have hy := url32_roundtrip k.y32 hk.2.2 hB.2.2
  simp only [privToJwk, importJwkPrivFields]
  rw [hd, hx, hy]

/-- C2 (amended): for every well-formed private key, export/import
round-trips through pkcs8, raw, jwk, hex and base64 under a provider that
accepts the canonical encodings; the `d` round-trip also holds whenever
both coordinates of `d·G` have full-width (32-byte) minimal encodings.
Without that condition it can fail, because `fromD` writes the unpadded
minimal encodings into the rebuilt buffer (see the scalar-379
counterexample). -/
theorem c2_roundtrips (p : Provider) (k : PrivK) (hk : SizedPriv k)
    (hB : BytesPriv k)
    (hok1 : p.okPkcs8Ecdh (exportPkcs8 k) = true)
    (hok2 : p.okPkcs8Ecdsa (exportPkcs8 k) = true)
    (hj1 : p.okJwkPrivEcdh (privJwkState1 k) = true)
    (hj2 : p.okJwkPrivEcdsa (privJwkState2 k) = true) :
    privFromPkcs8 p (privToPkcs8 k) = some k ∧
    privFromRaw p (privToRaw k) = some k ∧
    (privFromJwk p (privToJwk k)).1 = some k ∧
    privFromHex p (privToHex k) = some k ∧
    privFromBase64 p (privToBase64 k) = some k ∧
    (∀ x y, ecMul (bytesToNat k.d32) GPt = some (x, y) →
      minBytesOfNat x = k.x32 → minBytesOfNat y = k.y32 →
      privToD k = some k.d32 ∧ privFromD p k.d32 = some k) := by
  have hexp := importPkcs8_exportPkcs8 p k hk hok1 hok2
  have hklen := hk.1
  refine ⟨hexp, ?_, ?_, ?_, ?_, ?_⟩
  · have hpr := privToRaw_eq k hk
    have hlen97 : (privToRaw k).length = 97 := by
      rw [hpr]; simp [hk.1, hk.2.1, hk.2.2]
    have hs1 : listSlice (privToRaw k) 65 97 = k.d32 := by
      rw [hpr, show [(0x04 : Nat)] ++ k.x32 ++ k.y32 ++ k.d32 =
        ([(0x04 : Nat)] ++ k.x32 ++ k.y32) ++ k.d32 ++ [] by simp]
      exact slice_split _ _ _ 65 97 (by simp [hk.2.1, hk.2.2] <;> rfl)
        (by simp [hk.1, hk.2.1, hk.2.2] <;> rfl)
    have hs2 : listSlice (privToRaw k) 1 65 = k.x32 ++ k.y32 := by
      rw [hpr, show [(0x04 : Nat)] ++ k.x32 ++ k.y32 ++ k.d32 =
        [(0x04 : Nat)] ++ (k.x32 ++ k.y32) ++ k.d32 by simp]
      exact slice_split _ _ _ 1 65 rfl (by simp [hk.2.1, hk.2.2] <;> rfl)
    have hbuild : fromRawBuild (privToRaw k) = exportPkcs8 k := by
      rw [fromRawBuild_eq _ hlen97, hs1, hs2, exportPkcs8]
      simp [List.append_assoc]
    rw [privFromRaw, privFromPkcs8, hbuild]
    exact hexp
  · have hf1 : importJwkPrivFields (privJwkState1 k) = some k :=
      importJwkPrivFields_toJwk k hk hB ["deriveKey"]
    have heq : privFromJwk p (privToJwk k) =
        match importJwkPrivFields (privJwkState1 k),
            p.okJwkPrivEcdh (privJwkState1 k) with
        | some kk, true =>
          if p.okJwkPrivEcdsa (privJwkState2 k) then (some kk, privJwkState2 k)
          else (none, privJwkState2 k)
        | _, _ => (none, privJwkState1 k) := rfl
    rw [heq, hf1, hj1]
    simp [hj2]
  · have hbytes := exportPkcs8_bytes k hB
    rw [privFromHex, privToHex, privToPkcs8, hex_roundtrip _ hbytes]
    exact hexp
  · have hbytes := exportPkcs8_bytes k hB
    rw [privFromBase64, privToBase64, privToPkcs8, b64_roundtrip _ hbytes]
    exact hexp
  · intro x y hxy hmx hmy
    constructor
    · exact url32_roundtrip k.d32 hk.1 hB.1
    · rw [privFromD, if_neg (by omega), fromDBuffer,
        bigIntOfHex_hexOf k.d32 hB.1, hxy]
      have hxlen : (minBytesOfNat x).length = 32 := by rw [hmx]; exact hk.2.1
      have hylen : (minBytesOfNat y).length = 32 := by rw [hmy]; exact hk.2.2
      have hbuild : fromDBuild k.d32 x y = exportPkcs8 k := by
        rw [fromDBuild_eq k.d32 x y hk.1 hxlen hylen, hmx, hmy, exportPkcs8]
      show privFromPkcs8 p (fromDBuild k.d32 x y) = some k
      rw [privFromPkcs8, hbuild]
      exact hexp

/-- C2 counterexample: `c2BadKey` is a valid key (in-range scalar,
consistent point), its `d` export decodes fine, but importing that `d`
yields a key whose exported PKCS#8 bytes differ — `fromD` writes the
31-byte minimal X encoding left-aligned, corrupting the buffer. -/
theorem c2_counterexample :
    SizedPriv c2BadKey ∧ BytesPriv c2BadKey ∧
    0 < bytesToNat c2BadKey.d32 ∧ bytesToNat c2BadKey.d32 < nP256 ∧
    ecMul (bytesToNat c2BadKey.d32) GPt =
      some (bytesToNat c2BadKey.x32, bytesToNat c2BadKey.y32) ∧
    privToD c2BadKey = some c2BadKey.d32 ∧
    (privFromD providerAll c2BadKey.d32).map exportPkcs8 ≠
      some (exportPkcs8 c2BadKey) := by
  refine ⟨by decide, by decide, by decide, by decide, by decide, by decide, ?_⟩
  decide

/-- C2 witness: all six round-trips at the scalar-1 key under the
all-accepting provider. -/
theorem c2_witness :
    privFromPkcs8 providerAll (privToPkcs8 c2GoodKey) = some c2GoodKey ∧
    privFromRaw providerAll (privToRaw c2GoodKey) = some c2GoodKey ∧
    (privFromJwk providerAll (privToJwk c2GoodKey)).1 = some c2GoodKey ∧
    privFromHex providerAll (privToHex c2GoodKey) = some c2GoodKey ∧
    privFromBase64 providerAll (privToBase64 c2GoodKey) = some c2GoodKey ∧
    privToD c2GoodKey = some c2GoodKey.d32 ∧
    privFromD providerAll c2GoodKey.d32 = some c2GoodKey := by
  obtain ⟨h1, h2, h3, h4, h5, h6⟩ :=
    c2_roundtrips providerAll c2GoodKey (by decide) (by decide) rfl rfl rfl rfl
  obtain ⟨h6a, h6b⟩ := h6 gxP256 gyP256 (by decide) (by decide) (by decide)
  exact ⟨h1, h2, h3, h4, h5, h6a, h6b⟩

/-! ## Claims C4 and C5: the seed-derivation retry loop -/
theorem privFromD_providerNone (s : List Nat) : privFromD providerNone s = none := by
  rw [privFromD]
  split
  · rfl
  · cases h : fromDBuffer s with
    | none => rfl
    | some buf => simp [privFromPkcs8, importPkcs8, providerNone]

/-- C4: `fromSeed` returns the `fromD` result when that call succeeds;
on failure it equals `fromSeed` of the hash of the seed (the only place
any error is caught — `privFromD` itself surfaces failure as `none`);
and the retry loop has no iteration bound: under a provider that keeps
rejecting, no derivation terminates at all. -/
theorem c4_fromSeed :
    (∀ (p : Provider) (hash : List Nat → List Nat) (s : List Nat) (k : PrivK),
      privFromD p s = some k → FromSeedR p hash s k) ∧
    (∀ (p : Provider) (hash : List Nat → List Nat) (s : List Nat) (k : PrivK),
      privFromD p s = none →
        (FromSeedR p hash s k ↔ FromSeedR p hash (hash s) k)) ∧
    (∃ (p : Provider) (hash : List Nat → List Nat) (s : List Nat),
      ∀ k, ¬ FromSeedR p hash s k) := by
  refine ⟨fun p hash s k h => FromSeedR.found h, fun p hash s k hn => ?_, ?_⟩
  · constructor
    · intro h
      cases h with
      | found hf => rw [hn] at hf; exact Option.noConfusion hf
      | retry _ h2 => exact h2
    · exact fun h => FromSeedR.retry hn h
  · suffices hgen : ∀ (s : List Nat) (k : PrivK),
        ¬ FromSeedR providerNone id s k from
      ⟨providerNone, id, [], fun k => hgen [] k⟩
    intro s k hk
    induction hk with
    | found hf => rw [privFromD_providerNone] at hf; exact Option.noConfusion hf
    | retry _ _ ih => exact ih

/-- C4 witness: a seed whose `fromD` succeeds immediately derives in one
step. -/
theorem c4_witness :
    privFromD providerAll (toBytes32 1) = some c2GoodKey ∧
    FromSeedR providerAll id (toBytes32 1) c2GoodKey := by
  have h := c4_fromSeed.1 providerAll id (toBytes32 1) c2GoodKey (by decide)
  exact ⟨by decide, h⟩

/-- C5: the seed derivation is deterministic — any two terminating runs
of `fromSeed` on the same seed (same provider, same digest) produce the
same key material. -/
theorem c5_deterministic (p : Provider) (hash : List Nat → List Nat)
    (s : List Nat) (k1 k2 : PrivK)
    (h1 : FromSeedR p hash s k1) (h2 : FromSeedR p hash s k2) : k1 = k2 := by
  induction h1 with
  | found hf =>
    cases h2 with
    | found hf2 => rw [hf] at hf2; exact Option.some.inj hf2
    | retry hn _ => rw [hf] at hn; exact Option.noConfusion hn
  | retry hn _ ih =>
    cases h2 with
    | found hf2 => rw [hf2] at hn; exact Option.noConfusion hn
    | retry _ h2r => exact ih h2r

/-- C5 witness: two concrete derivations from the same seed agree. -/
theorem c5_witness :
    FromSeedR providerAll id (toBytes32 1) c2GoodKey ∧ c2GoodKey = c2GoodKey :=
  ⟨FromSeedR.found (by decide),
   c5_deterministic providerAll id (toBytes32 1) c2GoodKey c2GoodKey
     (FromSeedR.found (by decide)) (FromSeedR.found (by decide))⟩

/-- C9: every tag outside the recognized sets makes `PrivKey.from` /
`PubKey.from` hit the default `switch` branch and throw before any
provider import is attempted (`none` here is the throw; the dispatch
result is the operation to run, so no import can happen). -/
theorem c9_unknown_tag (t : String) :
    (t ∉ ["b64", "hex", "pkcs8", "jwk", "d", "seed", "random"] →
      privKeyFromTag t = none) ∧
    (t ∉ ["b64", "hex", "spki", "jwk", "coordinates"] →
      pubKeyFromTag t = none) := by
  constructor
  · intro h
    simp only [List.mem_cons, List.not_mem_nil, or_false, not_or] at h
    obtain ⟨h1, h2, h3, h4, h5, h6, h7⟩ := h
    simp [privKeyFromTag, h1, h2, h3, h4, h5, h6, h7]
  · intro h
    simp only [List.mem_cons, List.not_mem_nil, or_false, not_or] at h
    obtain ⟨h1, h2, h3, h4, h5⟩ := h
    simp [pubKeyFromTag, h1, h2, h3, h4, h5]

/-- C9 witness at a concrete unrecognized tag. -/
theorem c9_witness :
    privKeyFromTag "spki" = none ∧ pubKeyFromTag "pkcs8" = none := by
  obtain ⟨h1, h2⟩ := c9_unknown_tag "spki"
  obtain ⟨_, h4⟩ := c9_unknown_tag "pkcs8"
  exact ⟨h1 (by decide), h4 (by decide)⟩

/-- C10: `PubKey.fromJwk` deletes the caller's `d` property on every
path (including failing ones), leaves `key_ops = []` when the first
(ECDH) import throws, and leaves `key_ops = ['verify']` whenever the call
returns a key — so after the call the caller's object no longer contains
the private scalar. -/
theorem c10_fromJwk_mutation (p : Provider) (j : Jwk) :
    ((pubFromJwk p j).2).d = none ∧
    ((pubFromJwk p j).1.isSome = true → (pubFromJwk p j).2.key_ops = ["verify"]) ∧
    (p.okJwkPubEcdh { j with d := none, key_ops := [] } = false →
      (pubFromJwk p j).2.key_ops = []) ∧
    (importJwkPubFields { j with d := none, key_ops := [] } = none →
      (pubFromJwk p j).2.key_ops = []) := by
  have heq : pubFromJwk p j =
      match importJwkPubFields { j with d := none, key_ops := [] },
          p.okJwkPubEcdh { j with d := none, key_ops := [] } with
      | some k, true =>
        if p.okJwkPubEcdsa { j with d := none, key_ops := ["verify"] } then
          (some k, { j with d := none, key_ops := ["verify"] })
        else (none, { j with d := none, key_ops := ["verify"] })
      | _, _ => (none, { j with d := none, key_ops := [] }) := rfl
  rw [heq]
  cases hf : importJwkPubFields { j with d := none, key_ops := [] } with
  | none => cases ho : p.okJwkPubEcdh { j with d := none, key_ops := [] } <;> simp
  | some kk =>
    cases ho : p.okJwkPubEcdh { j with d := none, key_ops := [] } with
    | false => simp
    | true =>
      by_cases h2 : p.okJwkPubEcdsa { j with d := none, key_ops := ["verify"] } = true
      · simp [h2]
      · simp [h2, hf]

/-- C10 witness: a successful import on a concrete JWK carrying a `d`
member leaves the caller's object without `d` and with
`key_ops = ['verify']`. -/
theorem c10_witness :
    (pubFromJwk providerAll (privToJwk c2GoodKey)).2.d = none ∧
    (pubFromJwk providerAll (privToJwk c2GoodKey)).2.key_ops = ["verify"] := by
  obtain ⟨ha, hb, _, _⟩ := c10_fromJwk_mutation providerAll (privToJwk c2GoodKey)
  exact ⟨ha, hb (by decide)⟩
end Es6
